import Mathlib

/-!
Verification of the speech-emotion-recognition pipeline (codendushy/speechdata).

The development shallowly embeds the core of the two notebooks:
the augmentation primitives `add_noise` and `shift`, the sequence
feature extractor `extract_mfcc_sequence`, the two dataset builders
`load_data` (classical path) and `load_data_dl` (deep-learning path),
the class-weight computation, and the predictor `predict_emotion`.

External collaborators (librosa decoding, the MFCC transform, the pooled
spectral statistics, model inference) are modelled as oracle functions
carried in an `AudioEnv`; the numpy global random state is modelled as an
explicit stream of draws.  Machine reals are modelled as `ℚ` (the claims
under consideration depend on exact arithmetic identities, paddings,
permutations and control flow, not on floating-point rounding).
Python exceptions are modelled with `Except String`.
-/

namespace SpeechData

/-! ## Emotion code table and filename parsing (both notebooks) -/

/-- The fixed 8-entry emotion code table, from `emotions = ...` in both notebooks. -/
def emotions : List (String × String) :=
  [("01", "neutral"), ("02", "calm"), ("03", "happy"), ("04", "sad"),
   ("05", "angry"), ("06", "fearful"), ("07", "disgust"), ("08", "surprised")]

/-- Python `emotions.get(code)`: `some label` when the code is in the table, else `none`. -/
def emotionsGet (code : String) : Option String :=
  (emotions.find? (fun p => p.1 == code)).map (fun p => p.2)

/-- `observed_emotions = list(emotions.values())`. -/
def observed_emotions : List String := emotions.map (fun p => p.2)

/-- Python `os.path.basename`: the part of the path after the last slash. -/
def basenameOf (file : String) : String := (file.splitOn "/").getLastD file

/-- Python `file_name.split("-")` applied to the basename of a path. -/
def toksOf (file : String) : List String := (basenameOf file).splitOn "-"

/-- The label the builders would parse for a file: the third hyphen-delimited
token of the basename looked up in the emotion table.  Only consulted when
the token list has more than two entries. -/
def labelOf (file : String) : Option String := emotionsGet ((toksOf file).getD 2 "")

/-! ## Random-draw model and the augmentation primitives -/

/-- Model of `np.random.randint(hi)` (single-argument form, range `[0, hi)`).
numpy raises `ValueError: low >= high` when the range is empty; otherwise the
draw is taken from the head of the explicit stream of random integers. -/
def randint (hi : Nat) (rng : List Nat) : Except String (Nat × List Nat) :=
  if hi = 0 then .error "ValueError: low >= high"
  else .ok (rng.headD 0 % hi, rng.tail)

/-- Model of `np.roll(data, s)`: circular shift moving each element `s`
positions to the right (with wraparound); negative `s` shifts left. -/
def roll {α : Type} (data : List α) (s : Int) : List α :=
  if data.length = 0 then data
  else data.rotate ((-s % (data.length : Int)).toNat)

/-- `add_noise(data, noise_factor)` from both notebooks:
`data + noise_factor * np.random.randn(len(data))`, with the gaussian draws
modelled by the explicit stream `noise` (one draw per sample). -/
def add_noise (noise : List ℚ) (data : List ℚ) (noise_factor : ℚ) : List ℚ :=
  List.zipWith (fun d n => d + noise_factor * n) data
    ((List.range data.length).map (fun i => noise.getD i 0))

/-- `shift(data, shift_max, shift_direction)` from both notebooks:
draws `np.random.randint(int(len(data) * shift_max))`, negates the draw for
direction "right" (and with probability 1/2 for "both"), and returns
`np.roll(data, shift)`.  `int(...)` on the nonnegative product is a floor. -/
def shift (rng : List Nat) (data : List ℚ) (shift_max : ℚ) (shift_direction : String) :
    Except String (List ℚ) :=
  match randint (Int.toNat ⌊(data.length : ℚ) * shift_max⌋) rng with
  | .error e => .error e
  | .ok (s, rng1) =>
    if shift_direction = "right" then .ok (roll data (-(s : Int)))
    else if shift_direction = "both" then
      match randint 2 rng1 with
      | .error e => .error e
      | .ok (d, _) => .ok (roll data (if d = 1 then -(s : Int) else (s : Int)))
    else .ok (roll data (s : Int))

/-! ## Sequence feature extraction (`extract_mfcc_sequence`)

The MFCC matrix returned by `librosa.feature.mfcc` is modelled as a list of
`n_mfcc` coefficient rows, each with one entry per time frame. -/

/-- `mfcc.shape[1]`: the number of time-frame columns of the matrix. -/
def numCols (M : List (List ℚ)) : Nat := (M.headD []).length

/-- `np.pad(mfcc, pad_width=((0,0),(0,pad_width)), mode='constant')`:
append `pad_width` zero columns to every coefficient row. -/
def padCols (M : List (List ℚ)) (pad_width : Nat) : List (List ℚ) :=
  M.map (fun row => row ++ List.replicate pad_width 0)

/-- `mfcc[:, :max_len]`: keep only the first `max_len` columns of every row. -/
def takeCols (M : List (List ℚ)) (max_len : Nat) : List (List ℚ) :=
  M.map (fun row => row.take max_len)

/-- `.T` on a coefficients-by-frames matrix: row `t` of the result is the
`t`-th column of the input. -/
def transposeMat (M : List (List ℚ)) : List (List ℚ) :=
  (List.range (numCols M)).map (fun t => M.map (fun row => row.getD t 0))

/-- The pad-or-truncate-then-transpose body of `extract_mfcc_sequence`
(both notebooks), applied to the already-computed MFCC matrix:
if `mfcc.shape[1] < max_len` pad with zero columns, else truncate to the
first `max_len` columns, then transpose to time-major. -/
def extract_mfcc_sequence (M : List (List ℚ)) (max_len : Nat) : List (List ℚ) :=
  if numCols M < max_len then transposeMat (padCols M (max_len - numCols M))
  else transposeMat (takeCols M max_len)

/-! ## Oracles for the external audio collaborators -/

/-- Oracles for the external audio primitives: `decode` is `librosa.load`
(which may raise on an unreadable file), `mfccOf wave sr n_mfcc` is
`librosa.feature.mfcc`, and `pooledOf wave sr` is the pooled
MFCC/chroma/mel statistics vector computed by `extract_feature` after a
successful decode. -/
structure AudioEnv where
  decode : String → Except String (List ℚ × Nat)
  mfccOf : List ℚ → Nat → Nat → List (List ℚ)
  pooledOf : List ℚ → Nat → List ℚ

/-- `extract_feature(file_name, mfcc=True, chroma=True, mel=True)` from the
first notebook: decode the file (propagating a decode failure) and compute
the pooled statistics vector. -/
def extract_feature (env : AudioEnv) (file : String) : Except String (List ℚ) :=
  match env.decode file with
  | .error e => .error e
  | .ok (X, sample_rate) => .ok (env.pooledOf X sample_rate)

/-- `extract_mfcc_sequence(file_path, n_mfcc, max_len)` on a path: decode,
compute the MFCC matrix, pad or truncate and transpose. -/
def extract_mfcc_sequence_path (env : AudioEnv) (file : String) (n_mfcc max_len : Nat) :
    Except String (List (List ℚ)) :=
  match env.decode file with
  | .error e => .error e
  | .ok (y, sr) => .ok (extract_mfcc_sequence (env.mfccOf y sr n_mfcc) max_len)

/-! ## The deep-learning dataset builder `load_data_dl` (last-4.ipynb) -/

/-- Arguments the builders pass to the external `train_test_split`:
the test fraction, the fixed `random_state` seed, and the `stratify` array
(`none` when the argument is omitted). -/
structure SplitArgs where
  testSize : ℚ
  randomState : Nat
  stratify : Option (List String)

/-- Result of `load_data_dl` before the external split is performed:
the feature tensors, the parallel string labels, the diagnostics printed for
caught extraction failures, and the arguments handed to `train_test_split`. -/
structure DlResult where
  x : List (List (List ℚ))
  y : List String
  logs : List String
  splitArgs : SplitArgs

/-- The body of the `try` block of `load_data_dl` for one file, with the
state it appends and the diagnostic it prints when an exception is caught.
Mirrors the source: extract the un-augmented sequence; when `augment` is set,
re-load the waveform, extract an MFCC sequence of the noise-perturbed
waveform and one of the time-shifted waveform (the source inlines the same
pad-or-truncate-and-transpose code for both).  `shift` may itself raise (its
draw range can be empty); that exception is caught by the handler after the
already-made appends, exactly as in Python. -/
def dlTryBlock (env : AudioEnv) (rngOf : String → List Nat) (noiseOf : String → List ℚ)
    (max_len : Nat) (augment : Bool) (file : String) (emotion : String) :
    List (List (List ℚ)) × List String × Option String :=
  match env.decode file with
  | .error e => ([], [], some ("Error processing " ++ file ++ ": " ++ e))
  | .ok (y_audio, sr) =>
    let mfcc_seq := extract_mfcc_sequence (env.mfccOf y_audio sr 40) max_len
    if augment then
      let mfcc_noise :=
        extract_mfcc_sequence (env.mfccOf (add_noise (noiseOf file) y_audio (1/200)) sr 40) max_len
      match shift (rngOf file) y_audio (1/5) "both" with
      | .error e =>
        ([mfcc_seq, mfcc_noise], [emotion, emotion],
         some ("Error processing " ++ file ++ ": " ++ e))
      | .ok y_shift =>
        let mfcc_shift := extract_mfcc_sequence (env.mfccOf y_shift sr 40) max_len
        ([mfcc_seq, mfcc_noise, mfcc_shift], [emotion, emotion, emotion], none)
    else ([mfcc_seq], [emotion], none)

/-- The `for file in files` loop of `load_data_dl`.  For each file: take the
basename, split on hyphens (`[2]` raises `IndexError` when there are at most
two tokens, aborting the loop), look the code up with `.get`, skip when the
resulting label is not an observed emotion, otherwise run the guarded
extraction block and append its results and diagnostic. -/
def dlLoop (env : AudioEnv) (rngOf : String → List Nat) (noiseOf : String → List ℚ)
    (max_len : Nat) (augment : Bool) :
    List String → Except String (List (List (List ℚ)) × List String × List String)
  | [] => .ok ([], [], [])
  | file :: rest =>
    let toks := toksOf file
    if 2 < toks.length then
      match emotionsGet (toks.getD 2 "") with
      | none => dlLoop env rngOf noiseOf max_len augment rest
      | some emotion =>
        if emotion ∈ observed_emotions then
          let step := dlTryBlock env rngOf noiseOf max_len augment file emotion
          match dlLoop env rngOf noiseOf max_len augment rest with
          | .error e => .error e
          | .ok (xs, ys, logs) =>
            .ok (step.1 ++ xs, step.2.1 ++ ys, step.2.2.toList ++ logs)
        else dlLoop env rngOf noiseOf max_len augment rest
    else .error "IndexError: list index out of range"

/-- `load_data_dl(test_size, max_len, augment)` from last-4.ipynb: run the
enumeration loop over the globbed files, then hand the features, the one-hot
labels and `stratify=y` (the original string labels) to
`train_test_split(..., test_size=test_size, random_state=42, stratify=y)`. -/
def load_data_dl (env : AudioEnv) (rngOf : String → List Nat) (noiseOf : String → List ℚ)
    (files : List String) (test_size : ℚ) (max_len : Nat) (augment : Bool) :
    Except String DlResult :=
  match dlLoop env rngOf noiseOf max_len augment files with
  | .error e => .error e
  | .ok (x, y, logs) => .ok ⟨x, y, logs, ⟨test_size, 42, some y⟩⟩

/-! ## The classical dataset builder `load_data` (first notebook) -/

/-- Result of `load_data` before the external split: pooled feature vectors,
parallel labels, and the arguments handed to `train_test_split`. -/
structure ClassicResult where
  x : List (List ℚ)
  y : List String
  splitArgs : SplitArgs

/-- The `for file in all_files` loop of `load_data`.  Mirrors the source:
`emotions[file_name.split("-")[2]]` raises `IndexError` on a filename with
at most two hyphen-delimited tokens and `KeyError` on an unrecognized code;
there is no `try` around extraction, so a decode failure propagates.  With
`augment=True` the appended "noise" feature is `extract_feature(file, ...)`
again — the source never applies `add_noise` — followed by the feature of the
shifted waveform (written to a temporary wav file and re-extracted; the
write/read round trip is modelled as lossless). -/
def classicLoop (env : AudioEnv) (rngOf : String → List Nat) (augment : Bool) :
    List String → Except String (List (List ℚ) × List String)
  | [] => .ok ([], [])
  | file :: rest =>
    let toks := toksOf file
    if 2 < toks.length then
      match emotionsGet (toks.getD 2 "") with
      | none => .error ("KeyError: " ++ toks.getD 2 "")
      | some emotion =>
        if emotion ∈ observed_emotions then
          match extract_feature env file with
          | .error e => .error e
          | .ok feature =>
            let entries : Except String (List (List ℚ) × List String) :=
              if augment then
                match env.decode file with
                | .error e => .error e
                | .ok (y_audio, sr) =>
                  match extract_feature env file with
                  | .error e => .error e
                  | .ok feature_noise =>
                    match shift (rngOf file) y_audio (1/5) "both" with
                    | .error e => .error e
                    | .ok y_shift =>
                      let feature_shift := env.pooledOf y_shift sr
                      .ok ([feature, feature_noise, feature_shift],
                           [emotion, emotion, emotion])
              else .ok ([feature], [emotion])
            match entries with
            | .error e => .error e
            | .ok (xs, ys) =>
              match classicLoop env rngOf augment rest with
              | .error e => .error e
              | .ok (txs, tys) => .ok (xs ++ txs, ys ++ tys)
        else classicLoop env rngOf augment rest
    else .error "IndexError: list index out of range"

/-- `load_data(test_size, augment)` from the first notebook: run the loop,
then call `train_test_split(np.array(x), y, test_size=test_size,
random_state=9)` — note: no `stratify` argument is passed. -/
def load_data (env : AudioEnv) (rngOf : String → List Nat) (files : List String)
    (test_size : ℚ) (augment : Bool) : Except String ClassicResult :=
  match classicLoop env rngOf augment files with
  | .error e => .error e
  | .ok (x, y) => .ok ⟨x, y, ⟨test_size, 9, none⟩⟩

/-! ## Model of the external `train_test_split` mechanics -/

/-- The index split performed by the external splitter once the seeded
shuffle has produced the permutation `perm`: the first `k` shuffled indices
form the test partition, the rest the train partition. -/
def splitIndices (perm : List Nat) (k : Nat) : List Nat × List Nat :=
  (perm.take k, perm.drop k)

/-- Number of examples of a class of size `c` placed in the test partition by
the stratified splitter at ratio `r` (modelled from the splitter's contract:
the per-class test allocation is the ratio rounded up). -/
def stratTestCount (r : ℚ) (c : Nat) : Nat := (⌈r * (c : ℚ)⌉).toNat

/-! ## Class-imbalance corrector (last-4.ipynb) -/

/-- Insertion of a value into a sorted list of naturals. -/
def insertNat (a : Nat) : List Nat → List Nat
  | [] => [a]
  | b :: t => if a ≤ b then a :: b :: t else b :: insertNat a t

/-- Insertion sort on naturals. -/
def sortNat : List Nat → List Nat
  | [] => []
  | a :: t => insertNat a (sortNat t)

/-- `np.unique(y)`: the distinct values of `y` in increasing order. -/
def npUnique (y : List Nat) : List Nat := sortNat y.dedup

/-- `compute_class_weight('balanced', classes=np.unique(y), y=y)` from
scikit-learn, as called in last-4.ipynb: the weight of class `c` is
`len(y) / (n_classes * count(c))`, listed in the order of the sorted
classes. -/
def compute_class_weight (y : List Nat) : List ℚ :=
  (npUnique y).map (fun c => (y.length : ℚ) / (((npUnique y).length : ℚ) * (y.count c : ℚ)))

/-- `class_weight_dict = dict(enumerate(class_weights))`: position `i` of the
weight array, keyed by the encoded class index. -/
def class_weight_dict (y : List Nat) (i : Nat) : ℚ := (compute_class_weight y).getD i 0

/-! ## Predictor (last-4.ipynb) -/

/-- Helper for `np.argmax`: index of the first strict maximum, scanning with
the running best index and value. -/
def argmaxAux : List ℚ → Nat → Nat → ℚ → Nat
  | [], _, best, _ => best
  | v :: t, i, best, bv => if bv < v then argmaxAux t (i + 1) i v else argmaxAux t (i + 1) best bv

/-- `np.argmax` over a score row: the index of the first occurrence of the
maximum (0 on the empty row, which numpy rejects; never reached here). -/
def np_argmax : List ℚ → Nat
  | [] => 0
  | v :: t => argmaxAux t 1 0 v

/-- `le.classes_` for a `LabelEncoder` fitted on all eight emotion strings:
the distinct labels in sorted (lexicographic) order. -/
def le_classes : List String :=
  ["angry", "calm", "disgust", "fearful", "happy", "neutral", "sad", "surprised"]

/-- `predict_emotion(file_path, model, le, max_len)` from last-4.ipynb:
extract the MFCC sequence, add a leading batch dimension of size 1, run the
model, take `np.argmax` of the prediction and decode it through
`le.classes_`.  The trained model is the oracle `model` from a batch of
sequences to the score row. -/
def predict_emotion (env : AudioEnv) (model : List (List (List ℚ)) → List ℚ)
    (classes : List String) (file : String) (max_len : Nat) : Except String String :=
  match extract_mfcc_sequence_path env file 40 max_len with
  | .error e => .error e
  | .ok mfcc_seq =>
    let pred := model [mfcc_seq]
    let predicted_class := np_argmax pred
    .ok (classes.getD predicted_class "")

/-! ## Derived views of the builders and concrete oracles used by witnesses -/

/-- Whether `librosa.load` succeeds on a file under the given oracles. -/
def decodeOkB (env : AudioEnv) (f : String) : Bool :=
  match env.decode f with
  | .ok _ => true
  | .error _ => false

/-- The MFCC sequence `load_data_dl` stores for a successfully decoded file
(the empty matrix on a file that fails to decode; only read under
`decodeOkB`). -/
def dlSeqOf (env : AudioEnv) (max_len : Nat) (f : String) : List (List ℚ) :=
  match env.decode f with
  | .ok (w, sr) => extract_mfcc_sequence (env.mfccOf w sr 40) max_len
  | .error _ => []

/-- The diagnostic `load_data_dl` prints for a file whose decode fails
(the empty string on a readable file; only read under `!decodeOkB`). -/
def dlErrOf (env : AudioEnv) (f : String) : String :=
  match env.decode f with
  | .ok _ => ""
  | .error e => "Error processing " ++ f ++ ": " ++ e

/-- A concrete all-readable audio environment: every file decodes to the
5-sample waveform `[1,2,3,4,5]` at 22050 Hz, the MFCC oracle returns the
waveform as a single coefficient row, and the pooled oracle returns the
waveform itself. -/
def envA : AudioEnv where
  decode := fun _ => .ok ([1, 2, 3, 4, 5], 22050)
  mfccOf := fun w _ _ => [w]
  pooledOf := fun w _ => w

/-- A concrete environment in which exactly the file
`03-01-02-99-01-01-01.wav` is corrupt (its decode raises) and every other
file decodes to the 3-sample waveform `[1,2,3]`. -/
def envB : AudioEnv where
  decode := fun f =>
    if f = "03-01-02-99-01-01-01.wav" then .error "corrupt" else .ok ([1, 2, 3], 8000)
  mfccOf := fun w _ _ => [w]
  pooledOf := fun w _ => w

/-- A concrete integer-draw stream oracle used by witnesses. -/
def rng0 : String → List Nat := fun _ => [0]

/-- A concrete gaussian-draw stream oracle used by witnesses. -/
def noise0 : String → List ℚ := fun _ => [0]

/-- A concrete trained-model oracle scoring class 0 highest. -/
def model0 : List (List (List ℚ)) → List ℚ := fun _ => [1, 0, 0, 0, 0, 0, 0, 0]

/-- The label distribution with counts 300, 300 and 150 from the spec's
class-weight example. -/
def y750 : List ℕ := List.replicate 300 0 ++ List.replicate 300 1 ++ List.replicate 150 2

/-- The concrete result `load_data_dl` produces over the single-file corpus
`03-01-01-01-01-01-01.wav` in `envA` with `max_len = 2` and no
augmentation. -/
def res0C5 : DlResult :=
  ⟨[[[1], [2]]], ["neutral"], [], ⟨1/5, 42, some ["neutral"]⟩⟩

/-! ## Helper lemmas about `roll` and `shift` -/

/-- The result of `np.roll` is a permutation of its input. -/
theorem roll_perm {α : Type} (data : List α) (s : ℤ) : (roll data s).Perm data := by
  unfold roll; split
  · exact List.Perm.refl _
  · exact List.rotate_perm _ _

/-- Rolling by `s` and then by `-s` restores the list. -/
theorem roll_neg_cancel {α : Type} (data : List α) (s : ℤ) : roll (roll data s) (-s) = data := by
  by_cases h0 : data.length = 0
  · have hnil : data = [] := List.length_eq_zero.mp h0
    subst hnil; simp [roll]
  · have hn : 0 < (data.length : ℤ) := by exact_mod_cast Nat.pos_of_ne_zero h0
    unfold roll
    rw [if_neg h0]
    have hlen : (data.rotate ((-s % (data.length : ℤ)).toNat)).length = data.length :=
      List.length_rotate _ _
    rw [if_neg (by rw [hlen]; exact h0), hlen, neg_neg, List.rotate_rotate]
    have hA0 : 0 ≤ -s % (data.length : ℤ) := Int.emod_nonneg _ (ne_of_gt hn)
    have hAlt : -s % (data.length : ℤ) < (data.length : ℤ) := Int.emod_lt_of_pos _ hn
    have hB0 : 0 ≤ s % (data.length : ℤ) := Int.emod_nonneg _ (ne_of_gt hn)
    have hBlt : s % (data.length : ℤ) < (data.length : ℤ) := Int.emod_lt_of_pos _ hn
    have hsum : (-s % (data.length : ℤ) + s % (data.length : ℤ)) % (data.length : ℤ) = 0 := by
      rw [← Int.add_emod]; simp
    obtain ⟨k, hk⟩ := Int.dvd_of_emod_eq_zero hsum
    have hk0 : 0 ≤ k := by nlinarith
    have hk2 : k < 2 := by nlinarith
    have hk01 : k = 0 ∨ k = 1 := by omega
    rcases hk01 with rfl | rfl
    · have hz : (-s % (data.length : ℤ)).toNat + (s % (data.length : ℤ)).toNat = 0 := by omega
      rw [hz, List.rotate_zero]
    · have hz : (-s % (data.length : ℤ)).toNat + (s % (data.length : ℤ)).toNat = data.length := by
        omega
      rw [hz, List.rotate_length]

/-! ## Claim C8: `shift` is a circular rotation -/

/-- C8: whenever `shift` returns a waveform, that waveform is a circular
rotation of the input — rolling back by the same magnitude restores the
original exactly — and in particular a permutation of the input samples
(no samples created or destroyed). -/
theorem C8_shift_is_rotation (rng : List Nat) (data : List ℚ) (shift_max : ℚ)
    (dir : String) (out : List ℚ) (h : shift rng data shift_max dir = .ok out) :
    (∃ m : ℤ, out = roll data m ∧ roll out (-m) = data) ∧ out.Perm data := by
  unfold shift at h
  split at h
  · exact Except.noConfusion h
  · rename_i s rng1 heq
    split at h
    · have hout := Except.ok.inj h
      refine ⟨⟨-(s : ℤ), hout.symm, ?_⟩, hout ▸ roll_perm _ _⟩
      rw [← hout]; exact roll_neg_cancel _ _
    · split at h
      · split at h
        · exact Except.noConfusion h
        · rename_i d rng2 heq2
          have hout := Except.ok.inj h
          refine ⟨⟨if d = 1 then -(s : ℤ) else (s : ℤ), hout.symm, ?_⟩,
            hout ▸ roll_perm _ _⟩
          rw [← hout]; exact roll_neg_cancel _ _
      · have hout := Except.ok.inj h
        refine ⟨⟨(s : ℤ), hout.symm, ?_⟩, hout ▸ roll_perm _ _⟩
        rw [← hout]; exact roll_neg_cancel _ _

/-- Witness for C8 at a concrete input: on a 10-sample waveform with draw 1
and direction "left", `shift` returns the right-rotation by one sample,
which rolls back to the original and is a permutation of it. -/
theorem C8_shift_is_rotation_witness :
    (∃ m : ℤ, ([10, 1, 2, 3, 4, 5, 6, 7, 8, 9] : List ℚ) = roll [1, 2, 3, 4, 5, 6, 7, 8, 9, 10] m ∧
      roll ([10, 1, 2, 3, 4, 5, 6, 7, 8, 9] : List ℚ) (-m) = [1, 2, 3, 4, 5, 6, 7, 8, 9, 10]) ∧
    ([10, 1, 2, 3, 4, 5, 6, 7, 8, 9] : List ℚ).Perm [1, 2, 3, 4, 5, 6, 7, 8, 9, 10] :=
  C8_shift_is_rotation [1] [1, 2, 3, 4, 5, 6, 7, 8, 9, 10] (1/5) "left"
    [10, 1, 2, 3, 4, 5, 6, 7, 8, 9] (by with_unfolding_all rfl)

/-! ## Claim C6: behaviour of `shift` on a degenerate draw range -/

/-- Counterexample to C6 as stated: on the 4-sample waveform `[1,2,3,4]`
with the default `shift_max = 0.2` (so `len * shift_max = 0.8 < 1`), `shift`
is not a no-op returning the waveform unchanged: `np.random.randint(0)`
raises `ValueError: low >= high`. -/
theorem C6_counterexample :
    shift [0] [1, 2, 3, 4] (1/5) "both" = .error "ValueError: low >= high" := by
  with_unfolding_all rfl

/-- C6 as amended: for every waveform with `len * shift_max < 1` (and a
nonnegative `shift_max`), the draw range of `shift` is empty and the call
raises `ValueError: low >= high` — it does not return the waveform. -/
theorem C6_shift_degenerate_raises (rng : List Nat) (data : List ℚ) (shift_max : ℚ)
    (dir : String) (h0 : 0 ≤ shift_max) (h1 : (data.length : ℚ) * shift_max < 1) :
    shift rng data shift_max dir = .error "ValueError: low >= high" := by
  have hprod : 0 ≤ (data.length : ℚ) * shift_max := mul_nonneg (by positivity) h0
  have hfloor : ⌊(data.length : ℚ) * shift_max⌋ = 0 := by
    rw [Int.floor_eq_zero_iff]; exact Set.mem_Ico.mpr ⟨hprod, h1⟩
  unfold shift
  rw [hfloor]
  rfl

/-- Witness for the amended C6 at a concrete input: a 3-sample waveform with
`shift_max = 0.2` raises. -/
theorem C6_shift_degenerate_raises_witness :
    shift [0] [1, 2, 3] (1/5) "left" = .error "ValueError: low >= high" :=
  C6_shift_degenerate_raises [0] [1, 2, 3] (1/5) "left" (by norm_num) (by norm_num)

/-! ## Claim C10: unrecognized shift directions fall through to the left case -/

/-- Counterexample to C10 as stated: C10 asserts that for directions other
than "right" and "both" `shift` raises no error on any waveform, but on the
2-sample waveform `[1,2]` with direction "up" the (direction-independent)
draw raises `ValueError: low >= high`. -/
theorem C10_counterexample :
    shift [0] [1, 2] (1/5) "up" = .error "ValueError: low >= high" := by
  with_unfolding_all rfl

/-- C10 as amended: `shift` performs no validation of `shift_direction`.
Any direction other than "right" and "both" — including "left" and any
unrecognized string — behaves exactly like "left": the call is equal to the
corresponding call with direction "left", and whenever it returns, the
rotation magnitude is the non-negated (nonnegative) drawn value. -/
theorem C10_shift_direction_fallthrough (rng : List Nat) (data : List ℚ) (shift_max : ℚ)
    (dir : String) (h1 : dir ≠ "right") (h2 : dir ≠ "both") :
    shift rng data shift_max dir = shift rng data shift_max "left" ∧
    ∀ out, shift rng data shift_max dir = .ok out → ∃ s : ℕ, out = roll data (s : ℤ) := by
  constructor
  · unfold shift
    split
    · rfl
    · rw [if_neg h1, if_neg h2, if_neg (by decide : ¬("left" = "right")),
        if_neg (by decide : ¬("left" = "both"))]
  · intro out h
    unfold shift at h
    split at h
    · exact Except.noConfusion h
    · rename_i s rng1 heq
      rw [if_neg h1, if_neg h2] at h
      exact ⟨s, (Except.ok.inj h).symm⟩

/-- Witness for the amended C10 at a concrete input: direction "up" on a
10-sample waveform behaves exactly like direction "left". -/
theorem C10_shift_direction_fallthrough_witness :
    shift [1] ([1, 2, 3, 4, 5, 6, 7, 8, 9, 10] : List ℚ) (1/5) "up" =
      shift [1] [1, 2, 3, 4, 5, 6, 7, 8, 9, 10] (1/5) "left" ∧
    ∀ out, shift [1] ([1, 2, 3, 4, 5, 6, 7, 8, 9, 10] : List ℚ) (1/5) "up" = .ok out →
      ∃ s : ℕ, out = roll [1, 2, 3, 4, 5, 6, 7, 8, 9, 10] (s : ℤ) :=
  C10_shift_direction_fallthrough [1] [1, 2, 3, 4, 5, 6, 7, 8, 9, 10] (1/5) "up"
    (by decide) (by decide)

/-! ## Claim C1: shape of the extracted MFCC sequence -/

/-- Row `t` of `(List.range L).map g` is `g t`. -/
lemma rangeMap_getD {β : Type} (L : ℕ) (g : ℕ → β) (d : β) (t : ℕ) (h : t < L) :
    ((List.range L).map g).getD t d = g t := by
  rw [List.getD_eq_getElem _ _ (by simpa using h)]
  simp

/-- Any entry of a replicated zero list reads as zero. -/
lemma replicate_getD_zero (k i : ℕ) : (List.replicate k (0 : ℚ)).getD i 0 = 0 := by
  rcases Nat.lt_or_ge i k with h | h
  · rw [List.getD_eq_getElem _ _ (by simpa using h)]
    simp
  · rw [List.getD_eq_default _ _ (by simpa using h)]

/-- Reading inside the taken region of `l.take k` reads the original list. -/
lemma take_getD (l : List ℚ) (k t : ℕ) (d : ℚ) (h : t < k) :
    (l.take k).getD t d = l.getD t d := by
  rcases Nat.lt_or_ge t l.length with h2 | h2
  · rw [List.getD_eq_getElem _ _ (by simp; omega), List.getD_eq_getElem _ _ h2]
    simp
  · rw [List.getD_eq_default _ _ (by simp; omega), List.getD_eq_default _ _ h2]

/-- C1: for every MFCC matrix of `n_mfcc` coefficient rows over `T` frames
(any duration), `extract_mfcc_sequence` returns a time-major matrix of shape
exactly `(max_len, n_mfcc)`; for frames `t < min T max_len` row `t` is the
`t`-th column of the matrix (truncation keeps the first `max_len` columns),
and when `T < max_len` the trailing rows are zero columns (right padding). -/
theorem C1_extract_sequence_shape (M : List (List ℚ)) (n_mfcc T max_len : ℕ)
    (hn : M.length = n_mfcc) (hpos : 0 < n_mfcc)
    (hT : ∀ row ∈ M, row.length = T) :
    (extract_mfcc_sequence M max_len).length = max_len ∧
    (∀ r ∈ extract_mfcc_sequence M max_len, r.length = n_mfcc) ∧
    (∀ t, t < T → t < max_len →
      (extract_mfcc_sequence M max_len).getD t [] = M.map (fun row => row.getD t 0)) ∧
    (T < max_len → ∀ t, T ≤ t → t < max_len →
      (extract_mfcc_sequence M max_len).getD t [] = List.replicate n_mfcc 0) := by
  obtain ⟨r0, M', rfl⟩ : ∃ r0 M', M = r0 :: M' := by
    cases M with
    | nil => simp at hn; omega
    | cons a b => exact ⟨a, b, rfl⟩
  have hr0 : r0.length = T := hT r0 (List.mem_cons_self _ _)
  have hcols : numCols (r0 :: M') = T := by simp [numCols, hr0]
  by_cases hlt : T < max_len
  · have hbranch : extract_mfcc_sequence (r0 :: M') max_len =
        transposeMat (padCols (r0 :: M') (max_len - T)) := by
      rw [extract_mfcc_sequence, if_pos (by rw [hcols]; exact hlt), hcols]
    have hplen : ∀ row ∈ r0 :: M',
        (row ++ List.replicate (max_len - T) (0 : ℚ)).length = max_len := by
      intro row hrow
      have := hT row hrow
      simp [this]; omega
    have hpcols : numCols (padCols (r0 :: M') (max_len - T)) = max_len := by
      simp only [numCols, padCols, List.map_cons, List.headD_cons]
      simpa using hplen r0 (List.mem_cons_self _ _)
    refine ⟨?_, ?_, ?_, ?_⟩
    · rw [hbranch, transposeMat, hpcols]; simp
    · intro r hr
      rw [hbranch, transposeMat] at hr
      obtain ⟨t, ht, rfl⟩ := List.mem_map.mp hr
      simp only [padCols, List.length_map]
      simpa using hn
    · intro t htT htm
      rw [hbranch, transposeMat, hpcols, rangeMap_getD _ _ _ _ htm, padCols, List.map_map]
      refine List.map_congr_left ?_
      intro row hrow
      have hlen := hT row hrow
      simp only [Function.comp_apply]
      rw [List.getD_append _ _ _ _ (by rw [hlen]; exact htT)]
    · intro _ t htT htm
      rw [hbranch, transposeMat, hpcols, rangeMap_getD _ _ _ _ htm, padCols, List.map_map]
      have : ∀ row ∈ r0 :: M',
          ((fun row => (row : List ℚ).getD t 0) ∘
            fun row => row ++ List.replicate (max_len - T) 0) row = 0 := by
        intro row hrow
        have hlen := hT row hrow
        simp only [Function.comp_apply]
        rw [List.getD_append_right _ _ _ _ (by rw [hlen]; exact htT), replicate_getD_zero]
      rw [List.map_congr_left this, List.map_const', hn]
  · have hbranch : extract_mfcc_sequence (r0 :: M') max_len =
        transposeMat (takeCols (r0 :: M') max_len) := by
      rw [extract_mfcc_sequence, if_neg (by rw [hcols]; exact hlt)]
    have htcols : numCols (takeCols (r0 :: M') max_len) = max_len := by
      simp only [numCols, takeCols, List.map_cons, List.headD_cons]
      simp [hr0]; omega
    refine ⟨?_, ?_, ?_, ?_⟩
    · rw [hbranch, transposeMat, htcols]; simp
    · intro r hr
      rw [hbranch, transposeMat] at hr
      obtain ⟨t, ht, rfl⟩ := List.mem_map.mp hr
      simp only [takeCols, List.length_map]
      simpa using hn
    · intro t htT htm
      rw [hbranch, transposeMat, htcols, rangeMap_getD _ _ _ _ htm, takeCols, List.map_map]
      refine List.map_congr_left ?_
      intro row hrow
      simp only [Function.comp_apply]
      exact take_getD _ _ _ _ htm
    · intro hcon
      omega

/-- Witness for C1 at a concrete input: a 2-coefficient, 2-frame matrix
padded out to 3 time steps. -/
theorem C1_extract_sequence_shape_witness :
    (extract_mfcc_sequence [[1, 2], [3, 4]] 3).length = 3 ∧
    (∀ r ∈ extract_mfcc_sequence [[1, 2], [3, 4]] 3, r.length = 2) ∧
    (∀ t, t < 2 → t < 3 →
      (extract_mfcc_sequence [[1, 2], [3, 4]] 3).getD t [] =
        ([[1, 2], [3, 4]] : List (List ℚ)).map (fun row => row.getD t 0)) ∧
    (2 < 3 → ∀ t, 2 ≤ t → t < 3 →
      (extract_mfcc_sequence [[1, 2], [3, 4]] 3).getD t [] = List.replicate 2 0) :=
  C1_extract_sequence_shape [[1, 2], [3, 4]] 2 2 3 (by rfl) (by decide)
    (by intro row hrow; rcases List.mem_cons.mp hrow with rfl | hrow2
        · rfl
        · rcases List.mem_cons.mp hrow2 with rfl | hrow3
          · rfl
          · exact absurd hrow3 (List.not_mem_nil _))

/-! ## Claim C2: the noise-augmentation slot of `load_data` -/

/-- Every label the emotion table produces is an observed emotion. -/
lemma emotionsGet_mem_observed {c e : String} (h : emotionsGet c = some e) :
    e ∈ observed_emotions := by
  unfold emotionsGet at h
  cases hf : emotions.find? (fun p => p.1 == c) with
  | none => rw [hf] at h; exact Option.noConfusion h
  | some p =>
    rw [hf] at h
    simp only [Option.map_some'] at h
    obtain rfl : p.2 = e := Option.some.inj h
    exact List.mem_map.mpr ⟨p, List.mem_of_find?_eq_some hf, rfl⟩

/-- C2 (evaluation of the defect): for any included clip processed by the
classical builder `load_data` with augmentation enabled, the example
appended for the "noise" variant is byte-for-byte the un-augmented pooled
feature of the original file — the second stored feature equals the first,
and `add_noise` plays no role — while the third is the feature of the
time-shifted waveform.  The claim (and the code's own `# Add noise`
comment) say the second slot should be the feature of a noise-perturbed
waveform. -/
theorem C2_load_data_noise_slot_is_unaugmented (env : AudioEnv) (rngOf : String → List Nat)
    (file : String) (w : List ℚ) (sr : Nat) (ts : ℚ) (wS : List ℚ) (emo : String)
    (h2 : 2 < (toksOf file).length)
    (hk : emotionsGet ((toksOf file).getD 2 "") = some emo)
    (hdec : env.decode file = .ok (w, sr))
    (hsh : shift (rngOf file) w (1/5) "both" = .ok wS) :
    load_data env rngOf [file] ts true = .ok
      ⟨[env.pooledOf w sr, env.pooledOf w sr, env.pooledOf wS sr],
       [emo, emo, emo], ⟨ts, 9, none⟩⟩ := by
  have hobs : emo ∈ observed_emotions := emotionsGet_mem_observed hk
  have hloop : classicLoop env rngOf true [file] =
      .ok ([env.pooledOf w sr, env.pooledOf w sr, env.pooledOf wS sr], [emo, emo, emo]) := by
    simp only [classicLoop, extract_feature, hk, hdec, hsh, if_pos h2, if_pos hobs,
      List.append_nil]
    rfl
  rw [load_data, hloop]

/-- Witness for C2 at a concrete input: a single valid clip in `envA` with
augmentation enabled yields three examples whose first two features are
identical. -/
theorem C2_load_data_noise_slot_is_unaugmented_witness :
    load_data envA (fun _ => [0, 0]) ["03-01-05-01-01-01-01.wav"] (1/5) true = .ok
      ⟨[envA.pooledOf [1, 2, 3, 4, 5] 22050, envA.pooledOf [1, 2, 3, 4, 5] 22050,
        envA.pooledOf [1, 2, 3, 4, 5] 22050],
       ["angry", "angry", "angry"], ⟨1/5, 9, none⟩⟩ :=
  C2_load_data_noise_slot_is_unaugmented envA (fun _ => [0, 0]) "03-01-05-01-01-01-01.wav"
    [1, 2, 3, 4, 5] 22050 (1/5) [1, 2, 3, 4, 5] "angry"
    (by with_unfolding_all decide) (by with_unfolding_all rfl) (by rfl)
    (by with_unfolding_all rfl)

/-! ## Claim C3: handling of malformed filenames and unknown codes -/

/-- Counterexample to C3 as stated: a clip whose filename does not match the
hyphen-delimited convention is not silently excluded.  In `load_data_dl` the
filename `foo.wav` (one token) makes `file_name.split("-")[2]` raise an
uncaught `IndexError`, aborting the enumeration; and in the classical
`load_data` even a well-formed filename with the unrecognized code `99`
raises an uncaught `KeyError` from `emotions[...]`. -/
theorem C3_counterexample :
    load_data_dl envA rng0 noise0 ["foo.wav"] (1/5) 200 false =
      .error "IndexError: list index out of range" ∧
    load_data envA rng0 ["03-01-99-01-01-01-01.wav"] (1/5) false =
      .error "KeyError: 99" := by
  constructor
  · with_unfolding_all rfl
  · with_unfolding_all rfl

/-- Skipping unknown codes: over corpora whose filenames all have at least
three hyphen-delimited tokens, `load_data_dl` behaves as if the files whose
third token is not in the emotion table were removed. -/
lemma dlLoop_skip_unknown (env : AudioEnv) (rngOf : String → List Nat)
    (noiseOf : String → List ℚ) (ml : Nat) (aug : Bool) (files : List String)
    (h2 : ∀ f ∈ files, 2 < (toksOf f).length) :
    dlLoop env rngOf noiseOf ml aug files =
      dlLoop env rngOf noiseOf ml aug
        (files.filter (fun f => (emotionsGet ((toksOf f).getD 2 "")).isSome)) := by
  induction files with
  | nil => rfl
  | cons f rest ih =>
    have h2f := h2 f (List.mem_cons_self _ _)
    have h2r : ∀ g ∈ rest, 2 < (toksOf g).length :=
      fun g hg => h2 g (List.mem_cons_of_mem _ hg)
    rw [List.filter_cons]
    cases hk : emotionsGet ((toksOf f).getD 2 "") with
    | none =>
      have hLHS : dlLoop env rngOf noiseOf ml aug (f :: rest) =
          dlLoop env rngOf noiseOf ml aug rest := by
        simp only [dlLoop, if_pos h2f, hk]
      rw [hLHS, if_neg (by simp [hk]), ih h2r]
    | some e =>
      have hobs : e ∈ observed_emotions := emotionsGet_mem_observed hk
      rw [if_pos (by simp [hk])]
      simp only [dlLoop, if_pos h2f, hk, if_pos hobs, ih h2r]

/-- Over corpora whose filenames all have at least three hyphen-delimited
tokens, `dlLoop` never raises: every failure mode inside the loop is
caught. -/
lemma dlLoop_isOk (env : AudioEnv) (rngOf : String → List Nat)
    (noiseOf : String → List ℚ) (ml : Nat) (aug : Bool) (files : List String)
    (h2 : ∀ f ∈ files, 2 < (toksOf f).length) :
    ∃ v, dlLoop env rngOf noiseOf ml aug files = .ok v := by
  induction files with
  | nil => exact ⟨([], [], []), rfl⟩
  | cons f rest ih =>
    have h2f := h2 f (List.mem_cons_self _ _)
    obtain ⟨⟨xs, ys, logs⟩, hv⟩ := ih (fun g hg => h2 g (List.mem_cons_of_mem _ hg))
    cases hk : emotionsGet ((toksOf f).getD 2 "") with
    | none =>
      refine ⟨(xs, ys, logs), ?_⟩
      simp only [dlLoop, if_pos h2f, hk, hv]
    | some e =>
      have hobs : e ∈ observed_emotions := emotionsGet_mem_observed hk
      refine ⟨((dlTryBlock env rngOf noiseOf ml aug f e).1 ++ xs,
        (dlTryBlock env rngOf noiseOf ml aug f e).2.1 ++ ys,
        (dlTryBlock env rngOf noiseOf ml aug f e).2.2.toList ++ logs), ?_⟩
      simp only [dlLoop, if_pos h2f, hk, if_pos hobs, hv]

/-- C3 as amended: when every filename in the corpus has at least three
hyphen-delimited tokens, `load_data_dl` silently excludes exactly the clips
whose third token is not one of the 8 codes — the build equals the build on
the corpus with those clips removed — and no exception escapes the
enumeration.  (A filename with fewer than three tokens aborts the build with
an uncaught `IndexError`, and the classical `load_data` raises an uncaught
`KeyError` on an unrecognized code; see the counterexample.) -/
theorem C3_unknown_codes_skipped (env : AudioEnv) (rngOf : String → List Nat)
    (noiseOf : String → List ℚ) (files : List String) (ts : ℚ) (ml : Nat) (aug : Bool)
    (h2 : ∀ f ∈ files, 2 < (toksOf f).length) :
    load_data_dl env rngOf noiseOf files ts ml aug =
      load_data_dl env rngOf noiseOf
        (files.filter (fun f => (emotionsGet ((toksOf f).getD 2 "")).isSome)) ts ml aug ∧
    ∃ res, load_data_dl env rngOf noiseOf files ts ml aug = .ok res := by
  constructor
  · rw [load_data_dl, load_data_dl, dlLoop_skip_unknown env rngOf noiseOf ml aug files h2]
  · obtain ⟨⟨xs, ys, logs⟩, hv⟩ := dlLoop_isOk env rngOf noiseOf ml aug files h2
    exact ⟨⟨xs, ys, logs, ⟨ts, 42, some ys⟩⟩, by rw [load_data_dl, hv]⟩

/-- Witness for the amended C3 at a concrete input: a corpus with one
unknown-code clip (`99`) and one valid clip builds exactly like the corpus
with the unknown-code clip removed, and returns without raising. -/
theorem C3_unknown_codes_skipped_witness :
    load_data_dl envA rng0 noise0
      ["03-01-99-01-01-01-01.wav", "03-01-03-01-01-01-01.wav"] (1/5) 2 false =
      load_data_dl envA rng0 noise0
        ((["03-01-99-01-01-01-01.wav", "03-01-03-01-01-01-01.wav"] : List String).filter
          (fun f => (emotionsGet ((toksOf f).getD 2 "")).isSome)) (1/5) 2 false ∧
    ∃ res, load_data_dl envA rng0 noise0
      ["03-01-99-01-01-01-01.wav", "03-01-03-01-01-01-01.wav"] (1/5) 2 false = .ok res :=
  C3_unknown_codes_skipped envA rng0 noise0
    ["03-01-99-01-01-01-01.wav", "03-01-03-01-01-01-01.wav"] (1/5) 2 false
    (by with_unfolding_all decide)

/-! ## Claim C4: corrupt clips during the dataset build -/

/-- Characterization of the deep-learning enumeration loop without
augmentation, over corpora of well-formed, recognized filenames: the stored
features and labels come exactly from the files whose decode succeeds, and
one diagnostic is produced per file whose decode fails. -/
lemma dlLoop_noaug_spec (env : AudioEnv) (rngOf : String → List Nat)
    (noiseOf : String → List ℚ) (ml : Nat) (files : List String)
    (h2 : ∀ f ∈ files, 2 < (toksOf f).length)
    (hk : ∀ f ∈ files, (emotionsGet ((toksOf f).getD 2 "")).isSome) :
    dlLoop env rngOf noiseOf ml false files = .ok
      ((files.filter (fun f => decodeOkB env f)).map (fun f => dlSeqOf env ml f),
       (files.filter (fun f => decodeOkB env f)).map
         (fun f => (emotionsGet ((toksOf f).getD 2 "")).getD ""),
       (files.filter (fun f => !decodeOkB env f)).map (fun f => dlErrOf env f)) := by
  induction files with
  | nil => rfl
  | cons f rest ih =>
    have h2f := h2 f (List.mem_cons_self _ _)
    obtain ⟨e, he⟩ := Option.isSome_iff_exists.mp (hk f (List.mem_cons_self _ _))
    have hobs : e ∈ observed_emotions := emotionsGet_mem_observed he
    have ihr := ih (fun g hg => h2 g (List.mem_cons_of_mem _ hg))
      (fun g hg => hk g (List.mem_cons_of_mem _ hg))
    cases hd : env.decode f with
    | error er =>
      have hB : decodeOkB env f = false := by simp [decodeOkB, hd]
      have htry : dlTryBlock env rngOf noiseOf ml false f e =
          ([], [], some ("Error processing " ++ f ++ ": " ++ er)) := by
        simp [dlTryBlock, hd]
      simp only [dlLoop, if_pos h2f, he, if_pos hobs, ihr, htry, List.filter_cons, hB,
        Bool.false_eq_true, if_false, Bool.not_false, if_true, List.map_cons,
        List.nil_append, Option.toList_some, List.singleton_append]
      have herr : dlErrOf env f = "Error processing " ++ f ++ ": " ++ er := by
        simp [dlErrOf, hd]
      rw [herr]
    | ok p =>
      obtain ⟨w, sr⟩ := p
      have hB : decodeOkB env f = true := by simp [decodeOkB, hd]
      have htry : dlTryBlock env rngOf noiseOf ml false f e =
          ([extract_mfcc_sequence (env.mfccOf w sr 40) ml], [e], none) := by
        simp [dlTryBlock, hd]
      have hseq : dlSeqOf env ml f = extract_mfcc_sequence (env.mfccOf w sr 40) ml := by
        simp [dlSeqOf, hd]
      simp only [dlLoop, if_pos h2f, he, if_pos hobs, ihr, htry, List.filter_cons, hB,
        if_true, Bool.not_true, Bool.false_eq_true, if_false, List.map_cons,
        Option.toList_none, List.nil_append, List.singleton_append, hseq]
      rfl

/-- Counterexample to C4 as stated: C4 asserts that every dataset build
catches an extraction failure, but the classical build `load_data` has no
handler — in `envB` (whose second file is corrupt) the decode error escapes
and aborts the build, producing no dataset at all. -/
theorem C4_counterexample :
    load_data envB rng0 ["03-01-01-01-01-01-01.wav", "03-01-02-99-01-01-01.wav"]
      (1/5) false = .error "corrupt" := by
  with_unfolding_all rfl

/-- C4 as amended: the deep-learning build `load_data_dl` catches the
extraction failure of a corrupt clip, logs a diagnostic naming the offending
path, skips that clip and completes over the remaining clips, returning one
fewer example than the corpus has clips; the classical build `load_data`
instead lets the exception escape (see the counterexample). -/
theorem C4_deep_build_skips_corrupt (env : AudioEnv) (rngOf : String → List Nat)
    (noiseOf : String → List ℚ) (ml : Nat) (ts : ℚ) (pre post : List String)
    (b er : String)
    (h2 : ∀ f ∈ pre ++ b :: post, 2 < (toksOf f).length)
    (hk : ∀ f ∈ pre ++ b :: post, (emotionsGet ((toksOf f).getD 2 "")).isSome)
    (hpre : ∀ f ∈ pre, decodeOkB env f = true)
    (hpost : ∀ f ∈ post, decodeOkB env f = true)
    (hbad : env.decode b = .error er) :
    ∃ res, load_data_dl env rngOf noiseOf (pre ++ b :: post) ts ml false = .ok res ∧
      res.x.length + 1 = (pre ++ b :: post).length ∧
      res.y.length = res.x.length ∧
      res.logs = ["Error processing " ++ b ++ ": " ++ er] := by
  have hbadB : decodeOkB env b = false := by simp [decodeOkB, hbad]
  have hfilter : (pre ++ b :: post).filter (fun f => decodeOkB env f) = pre ++ post := by
    rw [List.filter_append, List.filter_cons, hbadB]
    simp only [Bool.false_eq_true, if_false]
    rw [List.filter_eq_self.mpr hpre, List.filter_eq_self.mpr hpost]
  have hfilter2 : (pre ++ b :: post).filter (fun f => !decodeOkB env f) = [b] := by
    rw [List.filter_append, List.filter_cons, hbadB]
    simp only [Bool.not_false, if_true]
    rw [List.filter_eq_nil_iff.mpr (fun f hf => by simp [hpre f hf]),
        List.filter_eq_nil_iff.mpr (fun f hf => by simp [hpost f hf])]
    rfl
  have hspec := dlLoop_noaug_spec env rngOf noiseOf ml (pre ++ b :: post) h2 hk
  rw [hfilter, hfilter2] at hspec
  refine ⟨⟨(pre ++ post).map (fun f => dlSeqOf env ml f),
    (pre ++ post).map (fun f => (emotionsGet ((toksOf f).getD 2 "")).getD ""),
    [dlErrOf env b],
    ⟨ts, 42, some ((pre ++ post).map
      (fun f => (emotionsGet ((toksOf f).getD 2 "")).getD ""))⟩⟩, ?_, ?_, ?_, ?_⟩
  · rw [load_data_dl, hspec]; rfl
  · simp only [List.length_map, List.length_append, List.length_cons]
    omega
  · simp
  · simp [dlErrOf, hbad]

/-- Witness for the amended C4 at a concrete input: in `envB`, a 3-clip
corpus whose middle clip is corrupt completes with 2 examples and one
diagnostic naming the corrupt path. -/
theorem C4_deep_build_skips_corrupt_witness :
    ∃ res, load_data_dl envB rng0 noise0
      (["03-01-01-01-01-01-01.wav"] ++ "03-01-02-99-01-01-01.wav" ::
        ["03-01-03-01-01-01-01.wav"]) (1/5) 2 false = .ok res ∧
      res.x.length + 1 = (["03-01-01-01-01-01-01.wav"] ++ "03-01-02-99-01-01-01.wav" ::
        ["03-01-03-01-01-01-01.wav"] : List String).length ∧
      res.y.length = res.x.length ∧
      res.logs = ["Error processing " ++ "03-01-02-99-01-01-01.wav" ++ ": " ++ "corrupt"] :=
  C4_deep_build_skips_corrupt envB rng0 noise0 2 (1/5) ["03-01-01-01-01-01-01.wav"]
    ["03-01-03-01-01-01-01.wav"] "03-01-02-99-01-01-01.wav" "corrupt"
    (by with_unfolding_all decide) (by with_unfolding_all decide)
    (by with_unfolding_all decide) (by with_unfolding_all decide)
    (by with_unfolding_all rfl)

/-! ## Claim C5: what the builders hand to the train/test splitter -/

/-- Counterexample to C5 as stated: C5 asserts that the split of every
dataset produced by the Dataset Builder is stratified keyed on the original
string labels, but the classical builder `load_data` calls
`train_test_split` with `random_state=9` and no `stratify` argument at
all. -/
theorem C5_counterexample :
    load_data envA rng0 ["03-01-01-01-01-01-01.wav"] (1/5) false =
      .ok ⟨[[1, 2, 3, 4, 5]], ["neutral"], ⟨1/5, 9, none⟩⟩ ∧
    (SplitArgs.mk (1/5) 9 none).stratify = none := by
  constructor
  · with_unfolding_all rfl
  · rfl

/-- C5 as amended: every dataset produced by the deep-learning builder
`load_data_dl` is handed to `train_test_split` with `stratify` set to the
original string labels and the fixed seed 42; under the splitter's
mechanics, the test/train index partition of the seeded shuffle is disjoint
and exhaustive for any shuffle, and the per-class stratified test allocation
matches the split ratio within `1/count` for every class.  (The classical
builder `load_data` passes no `stratify`; see the counterexample.) -/
theorem C5_deep_split_stratified (env : AudioEnv) (rngOf : String → List Nat)
    (noiseOf : String → List ℚ) (files : List String) (ts : ℚ) (ml : Nat) (aug : Bool)
    (res : DlResult)
    (h : load_data_dl env rngOf noiseOf files ts ml aug = .ok res) :
    res.splitArgs.stratify = some res.y ∧
    res.splitArgs.randomState = 42 ∧
    (∀ (perm : List ℕ) (k : ℕ), perm.Nodup →
      List.Disjoint (splitIndices perm k).1 (splitIndices perm k).2 ∧
      (splitIndices perm k).1 ++ (splitIndices perm k).2 = perm) ∧
    (∀ (r : ℚ) (c : ℕ), 0 < c → 0 ≤ r → r ≤ 1 →
      |((stratTestCount r c : ℕ) : ℚ) / (c : ℚ) - r| < 1 / (c : ℚ)) := by
  obtain ⟨x, y, logs, hres⟩ : ∃ x y logs, res = ⟨x, y, logs, ⟨ts, 42, some y⟩⟩ := by
    unfold load_data_dl at h
    split at h
    · exact Except.noConfusion h
    · rename_i x y logs heq
      exact ⟨x, y, logs, (Except.ok.inj h).symm⟩
  subst hres
  refine ⟨rfl, rfl, ?_, ?_⟩
  · intro perm k hnd
    exact ⟨List.disjoint_take_drop hnd (Nat.le_refl k), List.take_append_drop _ _⟩
  · intro r c hc hr0 hr1
    have hc' : (0 : ℚ) < (c : ℚ) := by exact_mod_cast hc
    have hnn : 0 ≤ r * (c : ℚ) := mul_nonneg hr0 (le_of_lt hc')
    have hceil0 : 0 ≤ ⌈r * (c : ℚ)⌉ := Int.ceil_nonneg hnn
    have hcast : ((stratTestCount r c : ℕ) : ℚ) = ((⌈r * (c : ℚ)⌉ : ℤ) : ℚ) := by
      unfold stratTestCount
      exact_mod_cast congrArg (fun z : ℤ => (z : ℚ)) (Int.toNat_of_nonneg hceil0)
    have h1 : r * (c : ℚ) ≤ ((stratTestCount r c : ℕ) : ℚ) := by
      rw [hcast]; exact Int.le_ceil _
    have h2 : ((stratTestCount r c : ℕ) : ℚ) < r * (c : ℚ) + 1 := by
      rw [hcast]; exact Int.ceil_lt_add_one _
    have hge : r ≤ ((stratTestCount r c : ℕ) : ℚ) / (c : ℚ) := by
      rw [le_div_iff₀ hc']; linarith
    have hlt : ((stratTestCount r c : ℕ) : ℚ) / (c : ℚ) < r + 1 / (c : ℚ) := by
      rw [div_lt_iff₀ hc', show (r + 1 / (c : ℚ)) * (c : ℚ) = r * (c : ℚ) + 1 by
        field_simp]
      exact h2
    rw [abs_of_nonneg (by linarith)]
    linarith

/-- Witness for the amended C5 at a concrete input: the single-clip corpus
in `envA` is handed to the splitter with `stratify` equal to its label list
and seed 42. -/
theorem C5_deep_split_stratified_witness :
    res0C5.splitArgs.stratify = some res0C5.y ∧
    res0C5.splitArgs.randomState = 42 ∧
    (∀ (perm : List ℕ) (k : ℕ), perm.Nodup →
      List.Disjoint (splitIndices perm k).1 (splitIndices perm k).2 ∧
      (splitIndices perm k).1 ++ (splitIndices perm k).2 = perm) ∧
    (∀ (r : ℚ) (c : ℕ), 0 < c → 0 ≤ r → r ≤ 1 →
      |((stratTestCount r c : ℕ) : ℚ) / (c : ℚ) - r| < 1 / (c : ℚ)) :=
  C5_deep_split_stratified envA rng0 noise0 ["03-01-01-01-01-01-01.wav"] (1/5) 2 false
    res0C5 (by with_unfolding_all rfl)

/-! ## Claim C7: balanced class weights -/

set_option maxRecDepth 100000 in
/-- C7: for every integer-labeled training split, the class-weight mapping
assigns class index `i` the weight `total_count / (num_classes * count[c])`
for the `i`-th sorted class `c`; and on the spec's example distribution with
counts 300, 300 and 150, the rare class's weight is exactly twice each
common class's weight. -/
theorem C7_class_weight_formula :
    (∀ (y : List ℕ) (i : ℕ), i < (npUnique y).length →
      class_weight_dict y i =
        (y.length : ℚ) / (((npUnique y).length : ℚ) * (y.count ((npUnique y).getD i 0) : ℚ))) ∧
    class_weight_dict y750 2 = 2 * class_weight_dict y750 0 ∧
    class_weight_dict y750 2 = 2 * class_weight_dict y750 1 := by
  refine ⟨?_, ?_, ?_⟩
  · intro y i hi
    unfold class_weight_dict compute_class_weight
    rw [List.getD_eq_getElem _ _ (by simpa using hi), List.getElem_map,
      List.getD_eq_getElem _ _ hi]
  · with_unfolding_all decide
  · with_unfolding_all decide

/-- Witness for C7 at a concrete input: the two-class distribution
`[0, 0, 1]` gives class 0 the weight `3 / (2 * 2)`. -/
theorem C7_class_weight_formula_witness :
    class_weight_dict [0, 0, 1] 0 =
      (([0, 0, 1] : List ℕ).length : ℚ) /
        (((npUnique [0, 0, 1]).length : ℚ) *
          (([0, 0, 1] : List ℕ).count ((npUnique [0, 0, 1]).getD 0 0) : ℚ)) :=
  C7_class_weight_formula.1 [0, 0, 1] 0 (by with_unfolding_all decide)

/-! ## Claim C9: the predictor -/

/-- The scan of `np_argmax` keeps its running best below the number of
entries seen. -/
lemma argmaxAux_lt (t : List ℚ) : ∀ (i best : ℕ) (bv : ℚ), best < i →
    argmaxAux t i best bv < i + t.length := by
  induction t with
  | nil => intro i best bv h; simpa [argmaxAux] using h
  | cons v rest ih =>
    intro i best bv h
    simp only [argmaxAux]
    split
    · have := ih (i + 1) i v (Nat.lt_succ_self i)
      simp only [List.length_cons]
      omega
    · have := ih (i + 1) best bv (Nat.lt_succ_of_lt h)
      simp only [List.length_cons]
      omega

/-- `np.argmax` of a nonempty row is a valid index into the row. -/
lemma np_argmax_lt (l : List ℚ) (h : l ≠ []) : np_argmax l < l.length := by
  cases l with
  | nil => exact absurd rfl h
  | cons v t =>
    have := argmaxAux_lt t 1 0 v (by omega)
    simp only [np_argmax, List.length_cons]
    omega

/-- C9: for every decodable clip, trained-model oracle producing 8 class
scores and the label encoder fitted on the 8 emotions, `predict_emotion`
returns exactly `le.classes_[argmax(model(expand_dims(seq, 0)))]` for the
extracted sequence `seq`, and the returned string is always one of the 8
emotion labels — there is no confidence threshold or unknown fallback, and
the embedding is a pure function of its inputs (no retraining side
effects). -/
theorem C9_predict_emotion_decodes_argmax (env : AudioEnv)
    (model : List (List (List ℚ)) → List ℚ) (file : String) (ml : ℕ)
    (w : List ℚ) (sr : ℕ)
    (hdec : env.decode file = .ok (w, sr))
    (hmodel : ∀ b, (model b).length = 8) :
    predict_emotion env model le_classes file ml = .ok
      (le_classes.getD
        (np_argmax (model [extract_mfcc_sequence (env.mfccOf w sr 40) ml])) "") ∧
    ∀ out, predict_emotion env model le_classes file ml = .ok out →
      out ∈ observed_emotions := by
  have heq : predict_emotion env model le_classes file ml = .ok
      (le_classes.getD
        (np_argmax (model [extract_mfcc_sequence (env.mfccOf w sr 40) ml])) "") := by
    unfold predict_emotion extract_mfcc_sequence_path
    rw [hdec]
  refine ⟨heq, ?_⟩
  intro out hout
  rw [heq] at hout
  obtain rfl := Except.ok.inj hout
  have hne : model [extract_mfcc_sequence (env.mfccOf w sr 40) ml] ≠ [] := by
    intro hc
    have h8 := hmodel [extract_mfcc_sequence (env.mfccOf w sr 40) ml]
    rw [hc] at h8
    simp at h8
  have hlt : np_argmax (model [extract_mfcc_sequence (env.mfccOf w sr 40) ml]) < 8 := by
    have hb := np_argmax_lt _ hne
    rw [hmodel [extract_mfcc_sequence (env.mfccOf w sr 40) ml]] at hb
    exact hb
  have hmem : le_classes.getD
      (np_argmax (model [extract_mfcc_sequence (env.mfccOf w sr 40) ml])) "" ∈
      le_classes := by
    rw [List.getD_eq_getElem _ _ (by simpa [le_classes] using hlt)]
    exact List.getElem_mem _
  have hsub : ∀ x ∈ le_classes, x ∈ observed_emotions := by decide
  exact hsub _ hmem

/-- Witness for C9 at a concrete input: in `envA` with the model oracle
`model0` (class 0 scored highest), the predictor returns the decoded argmax
class, and that class is one of the 8 labels. -/
theorem C9_predict_emotion_decodes_argmax_witness :
    predict_emotion envA model0 le_classes "clip.wav" 2 = .ok
      (le_classes.getD
        (np_argmax (model0 [extract_mfcc_sequence (envA.mfccOf [1, 2, 3, 4, 5] 22050 40) 2]))
        "") ∧
    ∀ out, predict_emotion envA model0 le_classes "clip.wav" 2 = .ok out →
      out ∈ observed_emotions :=
  C9_predict_emotion_decodes_argmax envA model0 "clip.wav" 2 [1, 2, 3, 4, 5] 22050
    (by rfl) (fun b => by rfl)

end SpeechData
